import Mathlib

/-!
Verification of the market-threshold logging pipeline
(`polymarket_logger.py`) and the CRUD persistence wrapper (`main.py`).

Numeric values that the Python source manipulates as floats are embedded
as exact rationals (`ℚ`); Python's `round(x, n)` (round half to even) is
embedded as `rhe`, exact round-half-to-even on rationals.  Randomness is
an explicit input: the per-sample uniform draws are a stream
`ℕ → ℚ × ℚ`, the wall clock a stream `ℕ → String`, and the library
shuffle (`random.shuffle`, external stdlib code) is modelled as an
arbitrary permutation of the built batch.
-/

namespace PolymarketLogger

/-- Round half to even on `ℚ`, the semantics of Python's builtin `round`
applied to an exact value: nearest integer, ties to the even neighbour. -/
def rhe (q : ℚ) : ℤ :=
  if Int.fract q < 1 / 2 then ⌊q⌋
  else if 1 / 2 < Int.fract q then ⌊q⌋ + 1
  else if ⌊q⌋ % 2 = 0 then ⌊q⌋ else ⌊q⌋ + 1

/-- `round(x, 2)` from the source: round to 2 decimal places. -/
def round2 (q : ℚ) : ℚ := (rhe (q * 100) : ℚ) / 100

/-- `round(x, 3)` from the source: round to 3 decimal places. -/
def round3 (q : ℚ) : ℚ := (rhe (q * 1000) : ℚ) / 1000

/-- `max lo (min hi x)`, the clamp idiom at line 116 of the source. -/
def clamp (lo hi x : ℚ) : ℚ := max lo (min hi x)

/-- A market configuration as stored in `db.json`; the threshold fields
are optional because `simulate_logs` reads them with
`market.get('thresholdN', default)`. -/
structure MarketConfig where
  marketId : String
  marketLabel : String
  threshold1 : Option ℚ
  threshold2 : Option ℚ
  threshold3 : Option ℚ
deriving DecidableEq

/-- The dummy market substituted at lines 145-153 of
`polymarket_logger.py` when `db.json` yields no markets. -/
def defaultMarket : MarketConfig :=
  { marketId := "MKT001"
    marketLabel := "Will BTC close above $100k?"
    threshold1 := some 1
    threshold2 := some (95 / 100)
    threshold3 := some (90 / 100) }

/-- `generate_realistic_prices` (lines 104-121), as a function of the two
uniform draws it consumes: `yes_raw ~ Uniform(0.05, 0.95)` and
`noise ~ Uniform(-0.03, 0.03)`. -/
def generate_realistic_prices (yes_raw noise : ℚ) : ℚ × ℚ :=
  let no_price := clamp (1 / 100) (99 / 100) (1 - yes_raw + noise)
  (round2 yes_raw, round2 no_price)

/-- The metric block of one record, lines 177-187 of the source. -/
structure Metrics where
  sum_price : ℚ
  difference_from_1 : ℚ
  below_threshold1 : String
  below_threshold2 : String
  below_threshold3 : String
deriving DecidableEq

/-- Metric derivation, lines 177-187 of `simulate_logs`: sum and
deviation are rounded, each flag compares the rounded sum against the
config's threshold, defaulting to 1.0 / 0.95 / 0.90. -/
def deriveMetrics (yes_price no_price : ℚ) (market : MarketConfig) : Metrics :=
  let sum_price := round2 (yes_price + no_price)
  let difference := round3 (1 - sum_price)
  let threshold1 := market.threshold1.getD 1
  let threshold2 := market.threshold2.getD (95 / 100)
  let threshold3 := market.threshold3.getD (90 / 100)
  { sum_price := sum_price
    difference_from_1 := difference
    below_threshold1 := if sum_price < threshold1 then "YES" else "NO"
    below_threshold2 := if sum_price < threshold2 then "YES" else "NO"
    below_threshold3 := if sum_price < threshold3 then "YES" else "NO" }

/-- One appended row (lines 191-203 of the source). -/
structure LogRow where
  log_id : ℕ
  market_id : String
  market_label : String
  yes_price : ℚ
  no_price : ℚ
  sum_price : ℚ
  difference_from_1 : ℚ
  below_threshold1 : String
  below_threshold2 : String
  below_threshold3 : String
  timestamp_UTC : String
deriving DecidableEq

/-- The body of the inner loop of `simulate_logs` for one sample:
generate prices from the next two draws, derive metrics, and build the
row carrying the given (already incremented) `log_id`. -/
def mkRow (market : MarketConfig) (log_id : ℕ) (draw : ℚ × ℚ)
    (time : String) : LogRow :=
  let prices := generate_realistic_prices draw.1 draw.2
  let m := deriveMetrics prices.1 prices.2 market
  { log_id := log_id
    market_id := market.marketId
    market_label := market.marketLabel
    yes_price := prices.1
    no_price := prices.2
    sum_price := m.sum_price
    difference_from_1 := m.difference_from_1
    below_threshold1 := m.below_threshold1
    below_threshold2 := m.below_threshold2
    below_threshold3 := m.below_threshold3
    timestamp_UTC := time }

/-- `for i in range(market_logs)` (lines 171-205): `k` counts samples
already produced overall (indexing the draw and clock streams), `log_id`
is the running identifier, incremented before each row is built. -/
def buildMarketRows (market : MarketConfig) (count k log_id : ℕ)
    (draws : ℕ → ℚ × ℚ) (ts : ℕ → String) : List LogRow :=
  match count with
  | 0 => []
  | n + 1 =>
      mkRow market (log_id + 1) (draws k) (ts k)
        :: buildMarketRows market n (k + 1) (log_id + 1) draws ts

/-- `market_logs` (line 169): the sample allocation of the market at
index `market_idx` when `num_logs` samples are spread over `numMarkets`
markets. -/
def market_logs (num_logs numMarkets market_idx : ℕ) : ℕ :=
  num_logs / numMarkets + (if market_idx < num_logs % numMarkets then 1 else 0)

/-- The outer `for market_idx, market in enumerate(markets)` loop
(lines 167-205). -/
def buildRowsAux (markets : List MarketConfig) (market_idx rem per k log_id : ℕ)
    (draws : ℕ → ℚ × ℚ) (ts : ℕ → String) : List LogRow :=
  match markets with
  | [] => []
  | market :: rest =>
      let cnt := per + (if market_idx < rem then 1 else 0)
      buildMarketRows market cnt k log_id draws ts
        ++ buildRowsAux rest (market_idx + 1) rem per (k + cnt) (log_id + cnt)
            draws ts

/-- `simulate_logs` (lines 139-205), up to but not including the final
`random.shuffle`: the batch of rows built in market order then sample
order, with identifiers continuing from `startId` (the value the source
derives at line 159 from the sheet's row count).  An empty market list is
replaced by the built-in dummy market. -/
def simulate_logs (markets0 : List MarketConfig) (num_logs startId : ℕ)
    (draws : ℕ → ℚ × ℚ) (ts : ℕ → String) : List LogRow :=
  let markets := if markets0.isEmpty then [defaultMarket] else markets0
  buildRowsAux markets 0 (num_logs % markets.length)
    (num_logs / markets.length) 0 startId draws ts

/-- Line 159 of the source:
`log_id = existing_rows - 1 if existing_rows > 1 else 0`. -/
def discoverLastId (existing_rows : ℕ) : ℕ :=
  if existing_rows > 1 then existing_rows - 1 else 0

/-- The sheet holding the log: the header row followed by the data rows.
`rows` are the data rows below the header. -/
structure Store where
  rows : List LogRow
deriving DecidableEq

/-- `len(self.sheet.get_all_values())` for a sheet with its header
present: one header row plus the data rows. -/
def rowCount (s : Store) : ℕ := s.rows.length + 1

/-- `self.sheet.append_rows(rows_to_add)` (line 213). -/
def appendBatch (s : Store) (out : List LogRow) : Store :=
  { rows := s.rows ++ out }

/-- The identifier invariant maintained across cycles: every data row's
`log_id` is at most the number of data rows (rows `2..N` hold ids
`1..N-1`). -/
def StoreInv (s : Store) : Prop :=
  ∀ r ∈ s.rows, r.log_id ≤ s.rows.length

instance (s : Store) : Decidable (StoreInv s) := by
  unfold StoreInv; infer_instance

/-- The fixed 11-column header written by `_format_header`
(lines 63-75). -/
def header : List String :=
  ["log_id", "market_id", "market_label", "yes_price", "no_price",
   "sum_price", "difference_from_1", "below_threshold1",
   "below_threshold2", "below_threshold3", "timestamp_UTC"]

/-- `self.sheet.update('A1:K1', [header])` (line 84): overwrite cells
A1..K1 of row 1 with the header, keeping any cells beyond column K and
all later rows; a sheet with no rows gains the header as its row 1. -/
def updateHeaderRow (sheet : List (List String)) : List (List String) :=
  match sheet with
  | [] => [header]
  | r :: rest => (header ++ r.drop 11) :: rest

/-- `_format_header` (lines 61-94), on the cell values of the sheet: if
the sheet has a row and its first row is non-empty with first cell
`"log_id"`, return unchanged; otherwise write the header into row 1. -/
def ensureHeader (sheet : List (List String)) : List (List String) :=
  if sheet.length > 0 ∧
      ((sheet.head?.getD []) ≠ [] ∧ (sheet.head?.getD []).head? = some "log_id")
    then sheet
    else updateHeaderRow sheet

/-- Modelled from the spec: the header policy as §4.5 step 2 words it —
write the header iff the first row is absent or differs from the full
11-column header.  Stated only to compare against the source's
`ensureHeader`. -/
def ensureHeaderSpec (sheet : List (List String)) : List (List String) :=
  if sheet.head? = some header then sheet else updateHeaderRow sheet

end PolymarketLogger

namespace CrudApi

/-- The pydantic `Record` model of `main.py`. -/
structure Record where
  marketId : String
  marketLabel : String
  threshold1 : ℚ
  threshold2 : ℚ
  threshold3 : ℚ
deriving DecidableEq

/-- `GET /records/{market_id}` (`get_record`, lines 32-38 of `main.py`):
first record with the given id, else HTTP 404. -/
def get_record (records : List Record) (market_id : String) :
    Except String Record :=
  match records.find? (fun r => r.marketId = market_id) with
  | some r => .ok r
  | none => .error "Record not found"

/-- `POST /records` (`create_record`, lines 40-47 of `main.py`). -/
def create_record (records : List Record) (record : Record) :
    Except String (List Record) :=
  if records.any (fun r => r.marketId = record.marketId)
    then .error "Market ID already exists"
    else .ok (records ++ [record])

/-- `PUT /records/{market_id}` (`update_record`, lines 49-57 of
`main.py`): replace the first record with the given id, else HTTP 404. -/
def update_record (records : List Record) (market_id : String)
    (record : Record) : Except String (List Record) :=
  match records.findIdx? (fun r => r.marketId = market_id) with
  | some i => .ok (records.set i record)
  | none => .error "Record not found"

/-- `DELETE /records/{market_id}` (`delete_record`, lines 59-64 of
`main.py`): keep the records whose id differs, and always answer
`"Record deleted"`. -/
def delete_record (records : List Record) (market_id : String) :
    List Record × String :=
  (records.filter (fun r => r.marketId ≠ market_id), "Record deleted")

end CrudApi

namespace PolymarketLogger

theorem sub_half_le_rhe (q : ℚ) : q - 1 / 2 ≤ (rhe q : ℚ) := by
  unfold rhe
  split_ifs with h1 h2 h3
  · linarith [h1, Int.floor_add_fract q]
  · push_cast
    linarith [Int.fract_lt_one q, Int.floor_add_fract q]
  · linarith [Int.fract_lt_one q, Int.floor_add_fract q]
  · have hf : Int.fract q = 1 / 2 := le_antisymm (not_lt.mp h2) (not_lt.mp h1)
    push_cast
    linarith [Int.floor_add_fract q]

theorem rhe_le_add_half (q : ℚ) : (rhe q : ℚ) ≤ q + 1 / 2 := by
  unfold rhe
  split_ifs with h1 h2 h3
  · linarith [Int.floor_le q]
  · push_cast
    linarith [Int.floor_add_fract q]
  · linarith [Int.floor_le q]
  · have hf : Int.fract q = 1 / 2 := le_antisymm (not_lt.mp h2) (not_lt.mp h1)
    push_cast
    linarith [Int.floor_add_fract q]

theorem rhe_intCast (n : ℤ) : rhe (n : ℚ) = n := by
  unfold rhe
  rw [Int.fract_intCast, Int.floor_intCast]
  norm_num

/-- An exact value lying between two integers rounds to a value between
them. -/
theorem rhe_bounds {a b : ℤ} {q : ℚ} (ha : (a : ℚ) ≤ q) (hb : q ≤ (b : ℚ)) :
    a ≤ rhe q ∧ rhe q ≤ b := by
  constructor
  · have h : (a : ℚ) - 1 < (rhe q : ℚ) := by
      have := sub_half_le_rhe q
      linarith
    have h2 : ((a - 1 : ℤ) : ℚ) < (rhe q : ℚ) := by push_cast; linarith
    have := Int.cast_lt.mp h2
    omega
  · have h : (rhe q : ℚ) < ((b + 1 : ℤ) : ℚ) := by
      have := rhe_le_add_half q
      push_cast
      linarith
    have := Int.cast_lt.mp h
    omega

/-- A value between two multiples of `1/100` rounds to two decimals
staying between them. -/
theorem round2_bounds {a b : ℤ} {q : ℚ} (ha : (a : ℚ) / 100 ≤ q)
    (hb : q ≤ (b : ℚ) / 100) :
    (a : ℚ) / 100 ≤ round2 q ∧ round2 q ≤ (b : ℚ) / 100 := by
  have h1 : (a : ℚ) ≤ q * 100 := by linarith
  have h2 : q * 100 ≤ (b : ℚ) := by linarith
  obtain ⟨l, u⟩ := rhe_bounds h1 h2
  have l' : (a : ℚ) ≤ (rhe (q * 100) : ℚ) := by exact_mod_cast l
  have u' : (rhe (q * 100) : ℚ) ≤ (b : ℚ) := by exact_mod_cast u
  unfold round2
  constructor <;> linarith

theorem mkRow_market_id (m : MarketConfig) (lid : ℕ) (dr : ℚ × ℚ)
    (t : String) : (mkRow m lid dr t).market_id = m.marketId := rfl

theorem mkRow_market_label (m : MarketConfig) (lid : ℕ) (dr : ℚ × ℚ)
    (t : String) : (mkRow m lid dr t).market_label = m.marketLabel := rfl

theorem mkRow_log_id (m : MarketConfig) (lid : ℕ) (dr : ℚ × ℚ)
    (t : String) : (mkRow m lid dr t).log_id = lid := rfl

theorem buildMarketRows_map_log_id (m : MarketConfig) (d : ℕ → ℚ × ℚ)
    (t : ℕ → String) (count : ℕ) :
    ∀ k lid, (buildMarketRows m count k lid d t).map (fun r => r.log_id) =
      List.range' (lid + 1) count := by
  induction count with
  | zero => intro k lid; simp [buildMarketRows]
  | succ n ih =>
      intro k lid
      simp [buildMarketRows, List.range'_succ, ih (k + 1) (lid + 1), mkRow_log_id]

theorem buildMarketRows_length (m : MarketConfig) (d : ℕ → ℚ × ℚ)
    (t : ℕ → String) (count k lid : ℕ) :
    (buildMarketRows m count k lid d t).length = count := by
  have h := congrArg List.length (buildMarketRows_map_log_id m d t count k lid)
  simpa using h

theorem mem_buildMarketRows {m : MarketConfig} {d : ℕ → ℚ × ℚ}
    {t : ℕ → String} {count : ℕ} :
    ∀ {k lid : ℕ} {r : LogRow}, r ∈ buildMarketRows m count k lid d t →
      r.market_id = m.marketId ∧ r.market_label = m.marketLabel := by
  induction count with
  | zero => intro k lid r h; simp [buildMarketRows] at h
  | succ n ih =>
      intro k lid r h
      rw [buildMarketRows] at h
      rcases List.mem_cons.mp h with h | h
      · subst h; exact ⟨rfl, rfl⟩
      · exact ih h

theorem buildRowsAux_map_log_id (d : ℕ → ℚ × ℚ) (t : ℕ → String)
    (markets : List MarketConfig) :
    ∀ idx rem per k lid,
      (buildRowsAux markets idx rem per k lid d t).map (fun r => r.log_id) =
        List.range' (lid + 1)
          (buildRowsAux markets idx rem per k lid d t).length := by
  induction markets with
  | nil => intro idx rem per k lid; simp [buildRowsAux]
  | cons m rest ih =>
      intro idx rem per k lid
      rw [buildRowsAux]
      set cnt := per + (if idx < rem then 1 else 0) with hcnt
      rw [List.map_append, buildMarketRows_map_log_id,
        ih (idx + 1) rem per (k + cnt) (lid + cnt), List.length_append,
        buildMarketRows_length]
      have : lid + cnt + 1 = lid + 1 + cnt := by omega
      rw [this, List.range'_append_1]
      congr 1
      omega

theorem buildRowsAux_length (d : ℕ → ℚ × ℚ) (t : ℕ → String)
    (markets : List MarketConfig) :
    ∀ idx rem per k lid,
      (buildRowsAux markets idx rem per k lid d t).length =
        markets.length * per +
          (min rem (idx + markets.length) - min rem idx) := by
  induction markets with
  | nil => intro idx rem per k lid; simp [buildRowsAux]
  | cons m rest ih =>
      intro idx rem per k lid
      rw [buildRowsAux]
      set cnt := per + (if idx < rem then 1 else 0) with hcnt
      rw [List.length_append, buildMarketRows_length,
        ih (idx + 1) rem per (k + cnt) (lid + cnt)]
      simp only [List.length_cons, Nat.succ_mul]
      rcases lt_or_ge idx rem with h | h
      · simp only [hcnt, if_pos h]; omega
      · simp only [hcnt, if_neg (not_lt.mpr h)]; omega

theorem mem_buildRowsAux {d : ℕ → ℚ × ℚ} {t : ℕ → String}
    {markets : List MarketConfig} :
    ∀ {idx rem per k lid : ℕ} {r : LogRow},
      r ∈ buildRowsAux markets idx rem per k lid d t →
        ∃ m ∈ markets, r.market_id = m.marketId ∧
          r.market_label = m.marketLabel := by
  induction markets with
  | nil => intro idx rem per k lid r h; simp [buildRowsAux] at h
  | cons m rest ih =>
      intro idx rem per k lid r h
      rw [buildRowsAux] at h
      rcases List.mem_append.mp h with h | h
      · exact ⟨m, List.mem_cons_self m rest, mem_buildMarketRows h⟩
      · obtain ⟨m', hm', hf⟩ := ih h
        exact ⟨m', List.mem_cons_of_mem m hm', hf⟩

theorem exists_mem_buildRowsAux {d : ℕ → ℚ × ℚ} {t : ℕ → String}
    {markets : List MarketConfig} {per : ℕ} (hper : 1 ≤ per) :
    ∀ {idx rem k lid : ℕ} {m : MarketConfig}, m ∈ markets →
      ∃ r ∈ buildRowsAux markets idx rem per k lid d t,
        r.market_id = m.marketId ∧ r.market_label = m.marketLabel := by
  induction markets with
  | nil => intro idx rem k lid m h; simp at h
  | cons m0 rest ih =>
      intro idx rem k lid m hm
      rw [buildRowsAux]
      rcases List.mem_cons.mp hm with h | h
      · subst h
        set cnt := per + (if idx < rem then 1 else 0) with hcnt
        have h1 : 1 ≤ cnt := le_trans hper (Nat.le_add_right per _)
        obtain ⟨n, hn⟩ : ∃ n, cnt = n + 1 := ⟨cnt - 1, by omega⟩
        refine ⟨mkRow m (lid + 1) (d k) (t k), List.mem_append_left _ ?_,
          rfl, rfl⟩
        rw [hn, buildMarketRows]
        exact List.mem_cons_self _ _
      · obtain ⟨r, hr, hf⟩ := ih h
        exact ⟨r, List.mem_append_right _ hr, hf⟩

theorem effective_markets_length_pos (ms : List MarketConfig) :
    0 < (if ms.isEmpty then [defaultMarket] else ms).length := by
  by_cases h : ms.isEmpty
  · simp [h]
  · simp only [h, if_neg]
    simp only [Bool.not_eq_true] at h
    exact List.length_pos.mpr (by simpa [List.isEmpty_iff] using h)

theorem simulate_logs_length (ms : List MarketConfig) (n s : ℕ)
    (d : ℕ → ℚ × ℚ) (t : ℕ → String) :
    (simulate_logs ms n s d t).length = n := by
  unfold simulate_logs
  set markets := if ms.isEmpty then [defaultMarket] else ms with hm
  have hpos : 0 < markets.length := effective_markets_length_pos ms
  rw [buildRowsAux_length]
  have hrem : n % markets.length < markets.length := Nat.mod_lt _ hpos
  have h1 : min (n % markets.length) (0 + markets.length) = n % markets.length := by
    rw [Nat.zero_add]; exact Nat.min_eq_left hrem.le
  rw [h1, Nat.min_zero, Nat.sub_zero]
  exact Nat.div_add_mod n markets.length

theorem simulate_logs_map_log_id (ms : List MarketConfig) (n s : ℕ)
    (d : ℕ → ℚ × ℚ) (t : ℕ → String) :
    (simulate_logs ms n s d t).map (fun r => r.log_id) =
      List.range' (s + 1) n := by
  have hl := simulate_logs_length ms n s d t
  simp only [simulate_logs] at hl ⊢
  rw [buildRowsAux_map_log_id, hl]

theorem log_id_bounds_of_mem {ms : List MarketConfig} {n s : ℕ}
    {d : ℕ → ℚ × ℚ} {t : ℕ → String} {r : LogRow}
    (h : r ∈ simulate_logs ms n s d t) :
    s + 1 ≤ r.log_id ∧ r.log_id < s + 1 + n := by
  have hmem : r.log_id ∈ (simulate_logs ms n s d t).map (fun r => r.log_id) :=
    List.mem_map_of_mem _ h
  rw [simulate_logs_map_log_id] at hmem
  simpa using List.mem_range'_1.mp hmem

theorem discoverLastId_rowCount (s : Store) :
    discoverLastId (rowCount s) = s.rows.length := by
  unfold discoverLastId rowCount
  split_ifs <;> omega

/-- C1: `discoverLastId` yields `0` for an empty or header-only store and
`rowCount - 1` otherwise; the batch built from `startId` carries the
`log_id` values `startId+1, startId+2, ...` in market order then sample
order; in particular from a header-only store (`rowCount = 1`) the first
record built gets `log_id = 1`, and from `rowCount = 101` it gets
`log_id = 101`. -/
theorem identifier_continuation :
    (∀ rc : ℕ, discoverLastId rc = if rc ≤ 1 then 0 else rc - 1) ∧
    (∀ (ms : List MarketConfig) (n s : ℕ) (d : ℕ → ℚ × ℚ) (t : ℕ → String),
      (simulate_logs ms n s d t).map (fun r => r.log_id) =
        List.range' (s + 1) n) ∧
    (∀ (ms : List MarketConfig) (n : ℕ) (d : ℕ → ℚ × ℚ) (t : ℕ → String),
      ((simulate_logs ms (n + 1) (discoverLastId 1) d t).head?).map
        (fun r => r.log_id) = some 1) ∧
    (∀ (ms : List MarketConfig) (n : ℕ) (d : ℕ → ℚ × ℚ) (t : ℕ → String),
      ((simulate_logs ms (n + 1) (discoverLastId 101) d t).head?).map
        (fun r => r.log_id) = some 101) := by
  refine ⟨?_, ?_, ?_, ?_⟩
  · intro rc
    unfold discoverLastId
    split_ifs <;> omega
  · exact simulate_logs_map_log_id
  · intro ms n d t
    rw [← List.head?_map, simulate_logs_map_log_id, List.range'_succ]
    rfl
  · intro ms n d t
    rw [← List.head?_map, simulate_logs_map_log_id, List.range'_succ]
    rfl

/-- C2: with the start id rediscovered from the store's row count, every
record of a newly built batch (in any shuffled order) has a `log_id`
strictly above every `log_id` already in the store, and appending the
batch re-establishes the store invariant, so ids stay globally unique
across restarts. -/
theorem store_log_id_invariant (s : Store) (ms : List MarketConfig) (n : ℕ)
    (d : ℕ → ℚ × ℚ) (t : ℕ → String) (out : List LogRow)
    (hinv : StoreInv s)
    (hout : out.Perm (simulate_logs ms n (discoverLastId (rowCount s)) d t)) :
    (∀ rNew ∈ out, ∀ rOld ∈ s.rows, rOld.log_id < rNew.log_id) ∧
    StoreInv (appendBatch s out) := by
  have hlen : out.length = n := by
    rw [hout.length_eq, simulate_logs_length]
  have hbound : ∀ rNew ∈ out,
      s.rows.length + 1 ≤ rNew.log_id ∧
        rNew.log_id < s.rows.length + 1 + n := by
    intro rNew hNew
    have : rNew ∈ simulate_logs ms n (discoverLastId (rowCount s)) d t :=
      hout.mem_iff.mp hNew
    have h := log_id_bounds_of_mem this
    rwa [discoverLastId_rowCount] at h
  constructor
  · intro rNew hNew rOld hOld
    have h1 := (hbound rNew hNew).1
    have h2 := hinv rOld hOld
    omega
  · intro r hr
    rw [appendBatch, List.length_append, hlen]
    rcases List.mem_append.mp hr with h | h
    · have := hinv r h
      omega
    · have := (hbound r h).2
      omega

/-- C2 witness: a concrete one-row store and a one-record batch. -/
theorem store_log_id_invariant_witness :
    StoreInv (appendBatch
      ⟨[⟨1, "MKT001", "L", 1/2, 1/2, 1, 0, "YES", "NO", "NO", "ts"⟩]⟩
      (simulate_logs [] 1
        (discoverLastId (rowCount
          ⟨[⟨1, "MKT001", "L", 1/2, 1/2, 1, 0, "YES", "NO", "NO", "ts"⟩]⟩))
        (fun _ => (1/2, 0)) (fun _ => "ts"))) :=
  (store_log_id_invariant _ [] 1 (fun _ => (1/2, 0)) (fun _ => "ts") _
    (by decide) (List.Perm.refl _)).2

/-- C8: every sample of the price synthesizer satisfies
`0.05 ≤ yes ≤ 0.95` and `0.01 ≤ no ≤ 0.99`, both values are multiples of
`1/100` (rounded to 2 decimals), and `no` is the rounded clamp of
`1 - yes_raw + noise`. -/
theorem price_bounds (yes_raw noise : ℚ)
    (h1 : 5 / 100 ≤ yes_raw) (h2 : yes_raw ≤ 95 / 100)
    (h3 : -(3 / 100) ≤ noise) (h4 : noise ≤ 3 / 100) :
    5 / 100 ≤ (generate_realistic_prices yes_raw noise).1 ∧
    (generate_realistic_prices yes_raw noise).1 ≤ 95 / 100 ∧
    1 / 100 ≤ (generate_realistic_prices yes_raw noise).2 ∧
    (generate_realistic_prices yes_raw noise).2 ≤ 99 / 100 ∧
    (∃ a : ℤ, (generate_realistic_prices yes_raw noise).1 = (a : ℚ) / 100) ∧
    (∃ b : ℤ, (generate_realistic_prices yes_raw noise).2 = (b : ℚ) / 100) ∧
    (generate_realistic_prices yes_raw noise).2 =
      round2 (clamp (1 / 100) (99 / 100) (1 - yes_raw + noise)) := by
  have hy : ((5 : ℤ) : ℚ) / 100 ≤ yes_raw ∧ yes_raw ≤ ((95 : ℤ) : ℚ) / 100 := by
    constructor <;> push_cast <;> linarith
  have hyb := round2_bounds hy.1 hy.2
  have hcl : ((1 : ℤ) : ℚ) / 100 ≤ clamp (1 / 100) (99 / 100) (1 - yes_raw + noise) ∧
      clamp (1 / 100) (99 / 100) (1 - yes_raw + noise) ≤ ((99 : ℤ) : ℚ) / 100 := by
    constructor
    · push_cast
      exact le_max_left _ _
    · push_cast
      exact max_le (by norm_num) (min_le_left _ _)
  have hnb := round2_bounds hcl.1 hcl.2
  have e1 : (generate_realistic_prices yes_raw noise).1 = round2 yes_raw := rfl
  have e2 : (generate_realistic_prices yes_raw noise).2 =
      round2 (clamp (1 / 100) (99 / 100) (1 - yes_raw + noise)) := rfl
  rw [e1, e2]
  refine ⟨?_, ?_, ?_, ?_, ⟨rhe (yes_raw * 100), rfl⟩,
    ⟨rhe (clamp (1 / 100) (99 / 100) (1 - yes_raw + noise) * 100), rfl⟩, rfl⟩
  · have h := hyb.1; push_cast at h; linarith
  · have h := hyb.2; push_cast at h; linarith
  · have h := hnb.1; push_cast at h; linarith
  · have h := hnb.2; push_cast at h; linarith

/-- C8 witness: the concrete draws `yes_raw = 1/2`, `noise = 0`. -/
theorem price_bounds_witness :
    (5 / 100 ≤ (1 : ℚ) / 2 ∧ (1 : ℚ) / 2 ≤ 95 / 100 ∧
      -(3 / 100) ≤ (0 : ℚ) ∧ (0 : ℚ) ≤ 3 / 100) ∧
    (5 / 100 ≤ (generate_realistic_prices (1/2) 0).1 ∧
      (generate_realistic_prices (1/2) 0).1 ≤ 95 / 100 ∧
      1 / 100 ≤ (generate_realistic_prices (1/2) 0).2 ∧
      (generate_realistic_prices (1/2) 0).2 ≤ 99 / 100) :=
  have h := price_bounds (1/2) 0 (by norm_num) (by norm_num) (by norm_num)
    (by norm_num)
  ⟨⟨by norm_num, by norm_num, by norm_num, by norm_num⟩,
    h.1, h.2.1, h.2.2.1, h.2.2.2.1⟩

theorem sum_alloc (per rem : ℕ) :
    ∀ n, ((List.range n).map (fun i => per + if i < rem then 1 else 0)).sum =
      n * per + min rem n := by
  intro n
  induction n with
  | zero => simp
  | succ n ih =>
      simp only [List.range_succ, List.map_append, List.sum_append, ih,
        List.map_cons, List.map_nil, List.sum_cons, List.sum_nil,
        Nat.succ_mul]
      rcases lt_or_ge n rem with h | h
      · simp only [if_pos h]; omega
      · simp only [if_neg (not_lt.mpr h)]; omega

/-- C4: each market is allocated `floor(total/n)` samples plus one extra
exactly when its index is below `total mod n`; allocations are never
below the base (hence never negative), they sum to `total`, the batch
really contains `total` records, and `total = 61` over 4 markets gives
allocations 16, 15, 15, 15. -/
theorem batch_allocation :
    (∀ total n idx, market_logs total n idx =
      total / n + (if idx < total % n then 1 else 0)) ∧
    (∀ total n idx, total / n ≤ market_logs total n idx) ∧
    (∀ total n idx, market_logs total n idx = total / n + 1 ↔ idx < total % n) ∧
    (∀ total n, n ≠ 0 → ((List.range n).map (market_logs total n)).sum = total) ∧
    (∀ (ms : List MarketConfig) (total s : ℕ) (d : ℕ → ℚ × ℚ)
      (t : ℕ → String), (simulate_logs ms total s d t).length = total) ∧
    (market_logs 61 4 0 = 16 ∧ market_logs 61 4 1 = 15 ∧
      market_logs 61 4 2 = 15 ∧ market_logs 61 4 3 = 15) := by
  refine ⟨fun total n idx => rfl, ?_, ?_, ?_, simulate_logs_length, by decide⟩
  · intro total n idx
    unfold market_logs
    exact Nat.le_add_right _ _
  · intro total n idx
    unfold market_logs
    split_ifs with h <;> simp [h]
  · intro total n hn
    have hfun : market_logs total n =
        fun i => total / n + if i < total % n then 1 else 0 := rfl
    rw [hfun, sum_alloc (total / n) (total % n) n,
      Nat.min_eq_left (Nat.mod_lt _ (Nat.pos_of_ne_zero hn)).le]
    exact Nat.div_add_mod total n

/-- C4 witness: the allocation over 4 markets of 61 samples sums to 61. -/
theorem batch_allocation_witness :
    ((List.range 4).map (market_logs 61 4)).sum = 61 :=
  batch_allocation.2.2.2.1 61 4 (by decide)

/-- C5 counterexample: with two configured markets and `totalCount = 1`,
the second market receives no record at all, refuting the claim for
`totalCount < len(configs)`. -/
theorem every_market_appears_cex :
    ¬ (∀ m ∈ [MarketConfig.mk "MKTA" "A" none none none,
              MarketConfig.mk "MKTB" "B" none none none],
        ∃ r ∈ simulate_logs
          [MarketConfig.mk "MKTA" "A" none none none,
           MarketConfig.mk "MKTB" "B" none none none] 1 0
          (fun _ => (1/2, 0)) (fun _ => "ts"),
          r.market_id = m.marketId) := by
  decide

/-- C5 amended: every market appears in the batch provided
`len(configs) ≤ totalCount` (the spec itself allows markets to receive
zero samples when `totalCount < len(configs)`). -/
theorem every_market_appears (ms : List MarketConfig) (total s : ℕ)
    (d : ℕ → ℚ × ℚ) (t : ℕ → String)
    (hne : ms ≠ []) (htot : ms.length ≤ total) :
    ∀ m ∈ ms, ∃ r ∈ simulate_logs ms total s d t,
      r.market_id = m.marketId ∧ r.market_label = m.marketLabel := by
  intro m hm
  have hempty : ms.isEmpty = false := by
    cases ms with
    | nil => exact absurd rfl hne
    | cons a l => rfl
  have hpos : 0 < ms.length := List.length_pos.mpr hne
  have hper : 1 ≤ total / ms.length := by
    rw [Nat.le_div_iff_mul_le hpos]
    omega
  unfold simulate_logs
  rw [hempty]
  simp only [Bool.false_eq_true, if_false]
  exact exists_mem_buildRowsAux hper hm

/-- C5 witness: the single default market with one sample. -/
theorem every_market_appears_witness :
    "MKT001" ∈ (simulate_logs [defaultMarket] 1 0 (fun _ => (1/2, 0))
      (fun _ => "ts")).map (fun r => r.market_id) := by
  obtain ⟨r, hr, hid, hlab⟩ :=
    every_market_appears [defaultMarket] 1 0 (fun _ => (1/2, 0))
      (fun _ => "ts") (by simp) (by decide) defaultMarket (by simp)
  exact List.mem_map.mpr ⟨r, hr, hid⟩

/-- C9: an empty config list is replaced by the built-in default market
(`MKT001`, "Will BTC close above $100k?", thresholds 1.0/0.95/0.90); the
pipeline still produces exactly `totalCount` records, all for the
default market. -/
theorem empty_config_fallback (n s : ℕ) (d : ℕ → ℚ × ℚ) (t : ℕ → String) :
    simulate_logs [] n s d t = simulate_logs [defaultMarket] n s d t ∧
    (simulate_logs [] n s d t).length = n ∧
    (simulate_logs [] n s d t).map (fun r => r.market_id) =
      List.replicate n "MKT001" ∧
    (simulate_logs [] n s d t).map (fun r => r.market_label) =
      List.replicate n "Will BTC close above $100k?" ∧
    defaultMarket.marketId = "MKT001" ∧
    defaultMarket.marketLabel = "Will BTC close above $100k?" ∧
    defaultMarket.threshold1 = some 1 ∧
    defaultMarket.threshold2 = some (95 / 100) ∧
    defaultMarket.threshold3 = some (90 / 100) := by
  have hmem : ∀ r ∈ simulate_logs [] n s d t,
      r.market_id = "MKT001" ∧
        r.market_label = "Will BTC close above $100k?" := by
    intro r hr
    unfold simulate_logs at hr
    obtain ⟨m, hm, h1, h2⟩ := mem_buildRowsAux hr
    simp only [List.isEmpty_nil, if_pos, List.mem_singleton] at hm
    subst hm
    exact ⟨h1, h2⟩
  refine ⟨rfl, simulate_logs_length [] n s d t, ?_, ?_, rfl, rfl, rfl, rfl, rfl⟩
  · rw [List.eq_replicate_iff]
    refine ⟨by simp [simulate_logs_length], ?_⟩
    intro b hb
    obtain ⟨r, hr, hrb⟩ := List.mem_map.mp hb
    rw [← hrb]
    exact (hmem r hr).1
  · rw [List.eq_replicate_iff]
    refine ⟨by simp [simulate_logs_length], ?_⟩
    intro b hb
    obtain ⟨r, hr, hrb⟩ := List.mem_map.mp hb
    rw [← hrb]
    exact (hmem r hr).2

theorem flag_eq_yes_iff {p : Prop} [Decidable p] :
    ((if p then "YES" else "NO") = "YES") ↔ p := by
  split_ifs with h <;> simp [h]

theorem flag_eq_no_iff {p : Prop} [Decidable p] :
    ((if p then "YES" else "NO") = "NO") ↔ ¬ p := by
  split_ifs with h <;> simp [h]

/-- C3: for every price pair and config, `sum_price = round(yes+no, 2)`,
`difference_from_1 = round(1 - sum_price, 3)`, each flag is `"YES"` iff
`sum_price` is below the config's threshold, and a missing threshold
defaults to 1.0 / 0.95 / 0.90 respectively. -/
theorem metric_derivation (yes_price no_price : ℚ) (c : MarketConfig) :
    (deriveMetrics yes_price no_price c).sum_price =
      round2 (yes_price + no_price) ∧
    (deriveMetrics yes_price no_price c).difference_from_1 =
      round3 (1 - (deriveMetrics yes_price no_price c).sum_price) ∧
    ((deriveMetrics yes_price no_price c).below_threshold1 = "YES" ↔
      (deriveMetrics yes_price no_price c).sum_price < c.threshold1.getD 1) ∧
    ((deriveMetrics yes_price no_price c).below_threshold1 = "NO" ↔
      ¬ (deriveMetrics yes_price no_price c).sum_price < c.threshold1.getD 1) ∧
    ((deriveMetrics yes_price no_price c).below_threshold2 = "YES" ↔
      (deriveMetrics yes_price no_price c).sum_price <
        c.threshold2.getD (95 / 100)) ∧
    ((deriveMetrics yes_price no_price c).below_threshold2 = "NO" ↔
      ¬ (deriveMetrics yes_price no_price c).sum_price <
        c.threshold2.getD (95 / 100)) ∧
    ((deriveMetrics yes_price no_price c).below_threshold3 = "YES" ↔
      (deriveMetrics yes_price no_price c).sum_price <
        c.threshold3.getD (90 / 100)) ∧
    ((deriveMetrics yes_price no_price c).below_threshold3 = "NO" ↔
      ¬ (deriveMetrics yes_price no_price c).sum_price <
        c.threshold3.getD (90 / 100)) ∧
    (c.threshold1 = none → c.threshold1.getD 1 = 1) ∧
    (c.threshold2 = none → c.threshold2.getD (95 / 100) = 95 / 100) ∧
    (c.threshold3 = none → c.threshold3.getD (90 / 100) = 90 / 100) ∧
    (∀ q, c.threshold1 = some q → c.threshold1.getD 1 = q) ∧
    (∀ q, c.threshold2 = some q → c.threshold2.getD (95 / 100) = q) ∧
    (∀ q, c.threshold3 = some q → c.threshold3.getD (90 / 100) = q) := by
  refine ⟨rfl, rfl, flag_eq_yes_iff, flag_eq_no_iff, flag_eq_yes_iff,
    flag_eq_no_iff, flag_eq_yes_iff, flag_eq_no_iff, ?_, ?_, ?_, ?_, ?_, ?_⟩
  all_goals first
    | (intro h; rw [h]; rfl)
    | (intro q h; rw [h]; rfl)

/-- C3 witness: a concrete pair summing to `0.99` with the default
thresholds flags `below_threshold1 = "YES"`. -/
theorem metric_derivation_witness :
    (deriveMetrics (1/2) (49/100)
      (MarketConfig.mk "M" "L" none none none)).below_threshold1 = "YES" := by
  have h := metric_derivation (1/2) (49/100)
    (MarketConfig.mk "M" "L" none none none)
  apply h.2.2.1.mpr
  have hsum : (deriveMetrics (1/2) (49/100)
      (MarketConfig.mk "M" "L" none none none)).sum_price = 99/100 := by
    show round2 (1/2 + 49/100) = 99/100
    unfold round2
    have h99 : ((1 : ℚ)/2 + 49/100) * 100 = ((99 : ℤ) : ℚ) := by norm_num
    rw [h99, rhe_intCast]
    norm_num
  rw [hsum]
  show (99 : ℚ)/100 < 1
  norm_num

/-- C7: any permutation of the built batch (the model of the final
`random.shuffle`) preserves the multiset of records — in particular the
multiset of `(log_id, market_id)` pairs and every record's
multiplicity — changing only the order. -/
theorem shuffle_invariance (ms : List MarketConfig) (n s : ℕ)
    (d : ℕ → ℚ × ℚ) (t : ℕ → String) (out : List LogRow)
    (h : out.Perm (simulate_logs ms n s d t)) :
    (out : Multiset LogRow) = (simulate_logs ms n s d t : Multiset LogRow) ∧
    ((out.map (fun r => (r.log_id, r.market_id)) : Multiset (ℕ × String)) =
      ((simulate_logs ms n s d t).map (fun r => (r.log_id, r.market_id)) :
        Multiset (ℕ × String))) ∧
    (∀ r : LogRow, out.count r = (simulate_logs ms n s d t).count r) :=
  ⟨Multiset.coe_eq_coe.mpr h, Multiset.coe_eq_coe.mpr (h.map _),
    fun r => h.count_eq r⟩

/-- C7 witness: the identity permutation of a concrete one-record
batch. -/
theorem shuffle_invariance_witness :
    ((simulate_logs [] 1 0 (fun _ => (1/2, 0)) (fun _ => "ts") :
        Multiset LogRow) =
      (simulate_logs [] 1 0 (fun _ => (1/2, 0)) (fun _ => "ts") :
        Multiset LogRow)) ∧
    (((simulate_logs [] 1 0 (fun _ => (1/2, 0)) (fun _ => "ts")).map
        (fun r => (r.log_id, r.market_id)) : Multiset (ℕ × String)) =
      ((simulate_logs [] 1 0 (fun _ => (1/2, 0)) (fun _ => "ts")).map
        (fun r => (r.log_id, r.market_id)) : Multiset (ℕ × String))) :=
  have h := shuffle_invariance [] 1 0 (fun _ => (1/2, 0)) (fun _ => "ts")
    (simulate_logs [] 1 0 (fun _ => (1/2, 0)) (fun _ => "ts"))
    (List.Perm.refl _)
  ⟨h.1, h.2.1⟩

theorem updateHeaderRow_head_log_id (sheet : List (List String)) :
    (((updateHeaderRow sheet).head?.getD []).head? = some "log_id") := by
  cases sheet <;> rfl

theorem ensureHeader_eq_self_iff (sheet : List (List String)) :
    ensureHeader sheet = sheet ↔
      (sheet.head?.getD []).head? = some "log_id" := by
  cases sheet with
  | nil => simp [ensureHeader, updateHeaderRow, header]
  | cons r rest =>
      cases r with
      | nil => simp [ensureHeader, updateHeaderRow, header]
      | cons c cs =>
          by_cases hc : c = "log_id"
          · subst hc
            simp [ensureHeader]
          · have hEH : ensureHeader ((c :: cs) :: rest) =
                (header ++ (c :: cs).drop 11) :: rest := by
              unfold ensureHeader
              rw [if_neg]
              · rfl
              · intro hcontra
                have h2 : (c :: cs).head? = some "log_id" := hcontra.2.2
                exact hc (Option.some.inj h2)
            rw [hEH]
            constructor
            · intro h
              exfalso
              apply hc
              have h1 : header ++ (c :: cs).drop 11 = c :: cs :=
                Option.some.inj (congrArg List.head? h)
              have h2 : some "log_id" = some c := congrArg List.head? h1
              exact (Option.some.inj h2).symm
            · intro h
              exfalso
              have h3 : some c = some "log_id" := h
              exact hc (Option.some.inj h3)

theorem ensureHeader_of_full_header (sheet : List (List String))
    (h : sheet.head? = some header) : ensureHeader sheet = sheet := by
  rw [ensureHeader_eq_self_iff, h]
  rfl

theorem ensureHeader_idem (sheet : List (List String)) :
    ensureHeader (ensureHeader sheet) = ensureHeader sheet := by
  rw [ensureHeader_eq_self_iff]
  unfold ensureHeader
  split_ifs with h
  · exact h.2.2
  · exact updateHeaderRow_head_log_id sheet

theorem ensureHeader_tail (sheet : List (List String)) :
    (ensureHeader sheet).tail = sheet.tail := by
  unfold ensureHeader
  split_ifs with h
  · rfl
  · cases sheet <;> rfl

theorem ensureHeader_length (sheet : List (List String)) :
    (ensureHeader sheet).length = max sheet.length 1 := by
  unfold ensureHeader
  split_ifs with h
  · omega
  · cases sheet with
    | nil => rfl
    | cons r rest => simp [updateHeaderRow]

/-- C6 counterexample: a first row whose first cell is `"log_id"` but
which differs from the full 11-column header is left untouched by the
source's header routine, while the spec's full-match policy would
rewrite it — the source checks only the first cell. -/
theorem header_full_match_cex :
    ensureHeader [["log_id", "bogus"]] = [["log_id", "bogus"]] ∧
    (["log_id", "bogus"] : List String) ≠ header ∧
    ensureHeaderSpec [["log_id", "bogus"]] ≠ [["log_id", "bogus"]] := by
  decide

/-- C6 amended: the header routine leaves the sheet unchanged iff the
first cell of the first row is `"log_id"` (in particular whenever the
first row matches the full header), it is idempotent, and it never
touches the rows after row 1 nor adds more than the one header row. -/
theorem ensure_header_amended (sheet : List (List String)) :
    (ensureHeader sheet = sheet ↔
      (sheet.head?.getD []).head? = some "log_id") ∧
    (sheet.head? = some header → ensureHeader sheet = sheet) ∧
    ensureHeader (ensureHeader sheet) = ensureHeader sheet ∧
    (ensureHeader sheet).tail = sheet.tail ∧
    (ensureHeader sheet).length = max sheet.length 1 :=
  ⟨ensureHeader_eq_self_iff sheet, ensureHeader_of_full_header sheet,
    ensureHeader_idem sheet, ensureHeader_tail sheet,
    ensureHeader_length sheet⟩

/-- C6 witness: a sheet holding exactly the full header is left
unchanged. -/
theorem ensure_header_amended_witness :
    ensureHeader [header] = [header] :=
  (ensure_header_amended [header]).2.1 rfl

end PolymarketLogger

namespace CrudApi

/-- C10: the delete endpoint removes exactly the records with the given
`marketId`, keeps the others in order, and reports `"Record deleted"`
unconditionally — when no record matches, the collection is returned
unchanged and delete still succeeds while read and update answer 404
(`"Record not found"`). -/
theorem delete_idempotent (records : List Record) (mid : String) :
    (delete_record records mid).2 = "Record deleted" ∧
    (∀ r : Record, r ∈ (delete_record records mid).1 ↔
      r ∈ records ∧ r.marketId ≠ mid) ∧
    (delete_record records mid).1.Sublist records ∧
    ((∀ r ∈ records, r.marketId ≠ mid) →
      (delete_record records mid).1 = records ∧
      get_record records mid = Except.error "Record not found" ∧
      ∀ rec : Record, update_record records mid rec =
        Except.error "Record not found") := by
  refine ⟨rfl, ?_, List.filter_sublist records, ?_⟩
  · intro r
    simp [delete_record, List.mem_filter]
  · intro h
    refine ⟨?_, ?_, ?_⟩
    · show records.filter (fun r => r.marketId ≠ mid) = records
      rw [List.filter_eq_self]
      intro a ha
      simpa using h a ha
    · have hf : records.find? (fun r => r.marketId = mid) = none := by
        rw [List.find?_eq_none]
        intro x hx
        simpa using h x hx
      simp [get_record, hf]
    · intro rec
      have hf : records.findIdx? (fun r => r.marketId = mid) = none := by
        rw [List.findIdx?_eq_none_iff]
        intro x hx
        simpa using h x hx
      simp [update_record, hf]

/-- C10 witness: deleting a missing id succeeds and changes nothing,
while reading it answers 404. -/
theorem delete_idempotent_witness :
    (delete_record [Record.mk "A" "a" 1 1 1] "B").1 =
      [Record.mk "A" "a" 1 1 1] ∧
    get_record [Record.mk "A" "a" 1 1 1] "B" =
      Except.error "Record not found" ∧
    (delete_record [Record.mk "A" "a" 1 1 1] "B").2 = "Record deleted" := by
  have h := delete_idempotent [Record.mk "A" "a" 1 1 1] "B"
  have h4 := h.2.2.2 (by decide)
  exact ⟨h4.1, h4.2.1, h.1⟩

end CrudApi
